import Mathlib

/-!
A verification development for the multiverse9 node implementation.

The Rust sources are shallowly embedded: byte buffers become `List Nat`
(each element a byte value), fallible handlers return `Except`-style
results, and the effectful collaborators (the redis storage handle, the
outbound SDK client, the ULID generator) are modelled as explicit
environment parameters.  Side effects on the store and the network are
recorded as explicit effect lists so that claims about "no store write"
or "no network access" are statable.
-/

namespace Multiverse9

/-! ## Byte-buffer helpers -/

/-- Embedding of Rust `slice::split` on a separator byte: always returns at
least one chunk, keeps empty chunks, including a trailing empty chunk when
the buffer ends with the separator.  Used by `aggregate` (split on `'@'`)
and by the protocol.rs draft of `remove` (split on NUL). -/
def splitAtByte (sep : Nat) : List Nat → List (List Nat)
  | [] => [[]]
  | b :: rest =>
    if b = sep then [] :: splitAtByte sep rest
    else
      match splitAtByte sep rest with
      | [] => [[b]]
      | cur :: more => (b :: cur) :: more

/-- Loop body of `internal::buf_extract_targets` (api.rs): the pending
`current_target` accumulator is pushed whenever a NUL byte is met, and a
non-empty trailing accumulator is pushed at the end. -/
def buf_extract_targets_go : List Nat → List Nat → List (List Nat)
  | cur, [] => if cur = [] then [] else [cur]
  | cur, b :: rest =>
    if b = 0 then cur :: buf_extract_targets_go [] rest
    else buf_extract_targets_go (cur ++ [b]) rest

/-- Embedding of `internal::buf_extract_targets` from api.rs. -/
def buf_extract_targets (buffer : List Nat) : List (List Nat) :=
  buf_extract_targets_go [] buffer

/-- Loop body of the `extract_targets` draft nested inside `aggregate` in
protocol.rs; the Rust code is identical to the api.rs draft. -/
def extract_targets_go : List Nat → List Nat → List (List Nat)
  | cur, [] => if cur = [] then [] else [cur]
  | cur, b :: rest =>
    if b = 0 then cur :: extract_targets_go [] rest
    else extract_targets_go (cur ++ [b]) rest

/-- Embedding of `extract_targets` from protocol.rs. -/
def extract_targets (buffer : List Nat) : List (List Nat) :=
  extract_targets_go [] buffer

/-! ## UTF-8 lossy decoding

`aggregate` turns the raw key and address chunks into `String`s with
`String::from_utf8_lossy`; the key's length check and the bytes appended
to the reply are taken from that lossy string.  We model the function at
the byte level: valid UTF-8 sequences are kept verbatim, every maximal
ill-formed subsequence is replaced by the three-byte encoding of U+FFFD,
following the std validation rules (restricted ranges for the first
continuation byte, error lengths 1..3, a truncated final sequence is
replaced by a single replacement character). -/

/-- UTF-8 encoding of the replacement character U+FFFD. -/
def repChar : List Nat := [0xEF, 0xBF, 0xBD]

/-- Whether a byte is a UTF-8 continuation byte. -/
def isCont (b : Nat) : Bool := 0x80 ≤ b && b ≤ 0xBF

/-- Valid ranges for the first continuation byte of a three-byte sequence. -/
def cont3ok (b0 b1 : Nat) : Bool :=
  if b0 = 0xE0 then 0xA0 ≤ b1 && b1 ≤ 0xBF
  else if b0 = 0xED then 0x80 ≤ b1 && b1 ≤ 0x9F
  else isCont b1

/-- Valid ranges for the first continuation byte of a four-byte sequence. -/
def cont4ok (b0 b1 : Nat) : Bool :=
  if b0 = 0xF0 then 0x90 ≤ b1 && b1 ≤ 0xBF
  else if b0 = 0xF4 then 0x80 ≤ b1 && b1 ≤ 0x8F
  else isCont b1

/-- Fuelled worker for the lossy decoder.  Every recursive call consumes one
unit of fuel and a non-empty prefix of the byte list, so fuel `length + 1`
always suffices; the fuel-0 branch is unreachable for the wrapper below. -/
def utf8LossyGo : Nat → List Nat → List Nat
  | 0, _ => []
  | _ + 1, [] => []
  | fuel + 1, b0 :: rest =>
    if b0 < 0x80 then b0 :: utf8LossyGo fuel rest
    else if 0xC2 ≤ b0 && b0 ≤ 0xDF then
      match rest with
      | [] => repChar
      | b1 :: rest1 =>
        if isCont b1 then b0 :: b1 :: utf8LossyGo fuel rest1
        else repChar ++ utf8LossyGo fuel (b1 :: rest1)
    else if 0xE0 ≤ b0 && b0 ≤ 0xEF then
      match rest with
      | [] => repChar
      | b1 :: rest1 =>
        if cont3ok b0 b1 then
          match rest1 with
          | [] => repChar
          | b2 :: rest2 =>
            if isCont b2 then b0 :: b1 :: b2 :: utf8LossyGo fuel rest2
            else repChar ++ utf8LossyGo fuel (b2 :: rest2)
        else repChar ++ utf8LossyGo fuel (b1 :: rest1)
    else if 0xF0 ≤ b0 && b0 ≤ 0xF4 then
      match rest with
      | [] => repChar
      | b1 :: rest1 =>
        if cont4ok b0 b1 then
          match rest1 with
          | [] => repChar
          | b2 :: rest2 =>
            if isCont b2 then
              match rest2 with
              | [] => repChar
              | b3 :: rest3 =>
                if isCont b3 then b0 :: b1 :: b2 :: b3 :: utf8LossyGo fuel rest3
                else repChar ++ utf8LossyGo fuel (b3 :: rest3)
            else repChar ++ utf8LossyGo fuel (b2 :: rest2)
        else repChar ++ utf8LossyGo fuel (b1 :: rest1)
    else repChar ++ utf8LossyGo fuel rest

/-- Byte-level model of `String::from_utf8_lossy`. -/
def utf8LossyBytes (l : List Nat) : List Nat := utf8LossyGo (l.length + 1) l

/-- The literal `"Unknown key"` substituted for a missing local key. -/
def unknownKeyBytes : List Nat :=
  [85, 110, 107, 110, 111, 119, 110, 32, 107, 101, 121]

/-! ## The api.rs handler functions

`Packet.storage` (a redis connection) is modelled as a read view
`store : List Nat → Option (List Nat)`; mutations (`set`, `del`) and the
outbound SDK call are recorded in an effect list.  `sdk::aggregate` from
sdk.rs is modelled as `remote addr key`, returning either the raw remote
reply bytes or an I/O error. -/

/-- Side effects a handler performs on its collaborators. -/
inductive Effect
  | set (key value : List Nat)
  | get (key : List Nat)
  | del (keys : List (List Nat))
  | remoteCall (addr : List Nat) (keys : List (List Nat))
deriving DecidableEq

/-- The `api::Error` variants relevant to the embedded handlers. -/
inductive ApiError
  | sdk
  | invalidKey (key : List Nat)
  | emptyKeys
  | redis
  | emptyBuffer
deriving DecidableEq

/-- Environment of an api.rs handler call: the storage read view and the
outbound SDK client (`sdk::aggregate` of sdk.rs takes one address and one
key and yields the raw reply bytes). -/
structure ApiEnv where
  store : List Nat → Option (List Nat)
  remote : List Nat → List Nat → Except Unit (List Nat)

/-- Embedding of `create` (api.rs): `genKey` stands for the freshly
generated `ulid::Ulid::new().to_string()`, whose text is always
`ulid::ULID_LEN = 26` characters. -/
def create (genKey payload : List Nat) : Except ApiError (List Nat) × List Effect :=
  if payload = [] then (.error .emptyBuffer, [])
  else (.ok genKey, [.set genKey payload])

/-- Embedding of `remove` (api.rs): the extracted keys are deleted with a
single batched `storage.del` call. -/
def remove (payload : List Nat) : Except ApiError (List Nat) × List Effect :=
  if buf_extract_targets payload = [] then (.error .emptyKeys, [])
  else (.ok [], [.del (buf_extract_targets payload)])

/-- The parsed key of an aggregate target: the chunk before the first
`'@'`, decoded with `String::from_utf8_lossy`. -/
def targetKey (t : List Nat) : List Nat :=
  utf8LossyBytes ((splitAtByte 64 t).headD [])

/-- Outcome of the api.rs `aggregate` handler.  `panicked` stands for the
Rust `panic!` the handler executes when a target is empty. -/
inductive AggOutcome
  | panicked
  | ok (out : List Nat)
  | err (e : ApiError)
deriving DecidableEq

/-- Loop body of `aggregate` (api.rs), processing the extracted targets in
order while accumulating the reply bytes. -/
def aggregateGo (env : ApiEnv) : List (List Nat) → List Nat → AggOutcome
  | [], acc => .ok acc
  | t :: ts, acc =>
    if t = [] then .panicked
    else if (targetKey t).length ≠ 26 then .err (.invalidKey (targetKey t))
    else
      match (splitAtByte 64 t)[1]? with
      | some chunk =>
        match env.remote (utf8LossyBytes chunk) (targetKey t) with
        | .error _ => .err .sdk
        | .ok reply => aggregateGo env ts (acc ++ reply)
      | none =>
        aggregateGo env ts
          (acc ++ targetKey t ++ [58] ++ ((env.store (targetKey t)).getD unknownKeyBytes) ++ [0])

/-- Embedding of `aggregate` (api.rs). -/
def aggregate (env : ApiEnv) (payload : List Nat) : AggOutcome :=
  if buf_extract_targets payload = [] then .err .emptyKeys
  else aggregateGo env (buf_extract_targets payload) []

/-- The reply bytes `unknown_command` (api.rs) writes to the stream. -/
def unknown_command_reply : List Nat := [1, 1]

/-- The per-target fragment of a successful aggregate reply: the raw
remote reply for an addressed target, `key ++ ':' ++ value ++ NUL` for a
local one (with `"Unknown key"` substituted for a missing key). -/
def fragment (env : ApiEnv) (t : List Nat) : List Nat :=
  match (splitAtByte 64 t)[1]? with
  | some chunk => (env.remote (utf8LossyBytes chunk) (targetKey t)).toOption.getD []
  | none => targetKey t ++ [58] ++ ((env.store (targetKey t)).getD unknownKeyBytes) ++ [0]

/-- A concrete environment: empty store, remote calls reply with no bytes. -/
def envOk : ApiEnv := ⟨fun _ => none, fun _ _ => .ok []⟩

/-! ## The retry helper `with_pullback` (lib.rs)

The callback is modelled by `succeeds : Nat → Bool` giving the result of
its `i`-th invocation (0-indexed).  The trace records the sleep durations
performed before each invocation, the number of invocations, and how many
times the fallback ran.  Note the source runs `fallback()` unconditionally
after the retry loop, whether the loop ended through the success `break`
or by exhausting `RETRIES`. -/

/-- Trace of one `with_pullback` run. -/
structure PullbackTrace where
  sleeps : List Nat
  calls : Nat
  fallbackRuns : Nat
deriving DecidableEq

/-- The `while iterations < RETRIES` loop of `with_pullback`, returning the
sleep durations and the number of callback invocations. -/
def pullback_loop (sleepUnit : Nat) (succeeds : Nat → Bool) : Nat → Nat → List Nat × Nat
  | _, 0 => ([], 0)
  | i, r + 1 =>
    let d := i * sleepUnit
    if succeeds i then ([d], 1)
    else
      let (ss, c) := pullback_loop sleepUnit succeeds (i + 1) r
      (d :: ss, c + 1)

/-- Embedding of `with_pullback` (lib.rs): run the bounded retry loop and
then invoke the fallback, exactly as the source does after the loop. -/
def with_pullback (retries sleepUnit : Nat) (succeeds : Nat → Bool) : PullbackTrace :=
  let (ss, c) := pullback_loop sleepUnit succeeds 0 retries
  ⟨ss, c, 1⟩

/-! ## The connection-handler loop `Handler::tcp` (protocol.rs)

`Handler::tcp` dispatches to the handler draft in the `api` module nested
inside protocol.rs.  Its `CODE_LOOKUP_TABLE` maps every registered command
code (0x01, 0x02, 0x03) to the pair `(0, 1)` and the sentinel 0x00 to
`(1, 1)`.  The loop is modelled as a function over the list of messages
`Tcp::read` yields on the stream; the responses passed to `Tcp::write`
and the storage/network effects are collected.  `ulid` generation across
the loop is modelled by `genKey : Nat → List Nat` applied to a running
counter of `create` invocations. -/

/-- The error variants of the protocol.rs handler draft. -/
inductive ProtoError
  | sdkError
  | payloadError
  | redisError
deriving DecidableEq

/-- Environment of the protocol.rs connection handler: storage read view,
the nested sdk client (which takes a list of keys), and the ULID stream. -/
structure LoopEnv where
  store : List Nat → Option (List Nat)
  remote : List Nat → List (List Nat) → Except Unit (List Nat)
  genKey : Nat → List Nat

/-- Embedding of the protocol.rs draft of `create` (no empty-payload
check): store the payload under a fresh key and return the key text. -/
def proto_create (env : LoopEnv) (k : Nat) (payload : List Nat) :
    Except ProtoError (List Nat) × List Effect :=
  (.ok (env.genKey k), [.set (env.genKey k) payload])

/-- Embedding of the protocol.rs draft of `remove`: split the payload on
NUL with `slice::split` (which never yields an empty list). -/
def proto_remove (payload : List Nat) : Except ProtoError (List Nat) × List Effect :=
  if splitAtByte 0 payload = [] then (.error .payloadError, [])
  else (.ok [], [.del (splitAtByte 0 payload)])

/-- Loop body of the protocol.rs draft of `aggregate`; unlike the api.rs
draft it skips empty targets with `continue`. -/
def proto_aggregate_go (env : LoopEnv) :
    List (List Nat) → List Nat → List Effect → Except ProtoError (List Nat) × List Effect
  | [], acc, effs => (.ok acc, effs)
  | t :: ts, acc, effs =>
    if t = [] then proto_aggregate_go env ts acc effs
    else
      match (splitAtByte 64 t)[1]? with
      | some chunk =>
        match env.remote (utf8LossyBytes chunk) [targetKey t] with
        | .error _ => (.error .sdkError, effs ++ [.remoteCall (utf8LossyBytes chunk) [targetKey t]])
        | .ok reply =>
          proto_aggregate_go env ts (acc ++ reply)
            (effs ++ [.remoteCall (utf8LossyBytes chunk) [targetKey t]])
      | none =>
        proto_aggregate_go env ts
          (acc ++ targetKey t ++ [58] ++ ((env.store (targetKey t)).getD unknownKeyBytes) ++ [0])
          (effs ++ [.get (targetKey t)])

/-- Embedding of the protocol.rs draft of `aggregate`. -/
def proto_aggregate (env : LoopEnv) (payload : List Nat) :
    Except ProtoError (List Nat) × List Effect :=
  if extract_targets payload = [] then (.error .payloadError, [])
  else proto_aggregate_go env (extract_targets payload) [] []

/-- Dispatch through `HANDLER_LOOKUP_TABLE` for a registered code
(1, 2 or 3), returning the handler result, its effects, and the updated
ULID counter. -/
def dispatch (env : LoopEnv) (k : Nat) (code : Nat) (payload : List Nat) :
    Except ProtoError (List Nat) × List Effect × Nat :=
  if code = 1 then
    match proto_create env k payload with
    | (r, effs) => (r, effs, k + 1)
  else if code = 2 then
    match proto_remove payload with
    | (r, effs) => (r, effs, k)
  else
    match proto_aggregate env payload with
    | (r, effs) => (r, effs, k)

/-- The bytes `Handler::tcp` writes on a handler failure: the failure code
from the lookup table, the failure code pushed a second time, then a NUL. -/
def failure_reply : List Nat := [1, 1, 0]

/-- One iteration of the `Handler::tcp` read loop on a single inbound
message: an empty message is skipped, a registered code is dispatched
(success writes `success_code ++ reply`, failure writes `failure_reply`),
any other code is answered by `api::unknown_command` with `[1, 1]`.
Returns the written responses, the effects, and the ULID counter. -/
def stepMessage (env : LoopEnv) (k : Nat) (msg : List Nat) :
    List (List Nat) × List Effect × Nat :=
  match msg with
  | [] => ([], [], k)
  | code :: payload =>
    if code = 1 || code = 2 || code = 3 then
      match dispatch env k code payload with
      | (.ok reply, effs, k2) => ([0 :: reply], effs, k2)
      | (.error _, effs, k2) => ([failure_reply], effs, k2)
    else ([[1, 1]], [], k)

/-- The `Handler::tcp` loop over a whole list of inbound messages. -/
def processMessages (env : LoopEnv) : Nat → List (List Nat) → List (List Nat) × List Effect
  | _, [] => ([], [])
  | k, m :: ms =>
    match stepMessage env k m with
    | (rs, effs, k2) =>
      match processMessages env k2 ms with
      | (rs2, effs2) => (rs ++ rs2, effs ++ effs2)

/-- A concrete loop environment: empty store, remote replies empty, ULIDs
are streams of `'A'`s. -/
def loopEnv0 : LoopEnv := ⟨fun _ => none, fun _ _ => .ok [], fun _ => []⟩

/-! ## The worker pool (pooling.rs)

`Pool` owns an `mpsc` channel of jobs and `N` worker threads; each worker
loops on `recv()`, which yields queued jobs in FIFO order and returns an
error (ending the worker) exactly when the sender is dropped and the
queue is empty.  `Pool::execute` sends a job through the sender and
panics (`unwrap` on `None`) once `drop` has taken the sender, and
`Pool::drop` first drops the sender and then joins every worker.

The concurrency is modelled as a labelled transition system over a pool
state.  Jobs are identified by natural numbers; a worker is `idle`
(inside `recv`), `running j`, or `exited` (its loop broke).  The steps
are exactly the atomic interactions the Rust code permits:
submitting a job requires the sender to still exist (`closed = false`),
a worker can take the head of a non-empty queue, finish its current job,
or exit when the channel is closed and the queue drained; `close` models
`drop(self.tx.take())`.  Teardown having completed (all workers joined)
corresponds to every worker being `exited`. -/

/-- Status of one pool worker thread. -/
inductive WStatus
  | idle
  | running (j : Nat)
  | exited
deriving DecidableEq

/-- Global state of the pool, with history variables `submitted` and
`executed` recording jobs handed to `execute` and jobs whose closure ran
to completion. -/
structure PoolState where
  queue : List Nat
  closed : Bool
  workers : List WStatus
  submitted : List Nat
  executed : List Nat
deriving DecidableEq

/-- Jobs currently held by a running worker. -/
def heldJobs (ws : List WStatus) : List Nat :=
  ws.filterMap fun w =>
    match w with
    | .running j => some j
    | _ => none

/-- Atomic transitions of the pool. -/
inductive PoolStep : PoolState → PoolState → Prop
  | submit (s : PoolState) (j : Nat) (h : s.closed = false) :
      PoolStep s ⟨s.queue ++ [j], s.closed, s.workers, s.submitted ++ [j], s.executed⟩
  | take (s : PoolState) (l1 l2 : List WStatus) (j : Nat) (rest : List Nat)
      (hw : s.workers = l1 ++ WStatus.idle :: l2) (hq : s.queue = j :: rest) :
      PoolStep s ⟨rest, s.closed, l1 ++ WStatus.running j :: l2, s.submitted, s.executed⟩
  | finish (s : PoolState) (l1 l2 : List WStatus) (j : Nat)
      (hw : s.workers = l1 ++ WStatus.running j :: l2) :
      PoolStep s ⟨s.queue, s.closed, l1 ++ WStatus.idle :: l2, s.submitted, s.executed ++ [j]⟩
  | close (s : PoolState) :
      PoolStep s ⟨s.queue, true, s.workers, s.submitted, s.executed⟩
  | exit (s : PoolState) (l1 l2 : List WStatus)
      (hw : s.workers = l1 ++ WStatus.idle :: l2) (hc : s.closed = true) (hq : s.queue = []) :
      PoolStep s ⟨s.queue, s.closed, l1 ++ WStatus.exited :: l2, s.submitted, s.executed⟩

/-- Initial state of `Pool::new(n)`: empty queue, live sender, `n` idle
workers. -/
def initPool (n : Nat) : PoolState :=
  ⟨[], false, List.replicate n .idle, [], []⟩

/-- States reachable from `Pool::new(n)`. -/
inductive PoolReach (n : Nat) : PoolState → Prop
  | init : PoolReach n (initPool n)
  | step {s t : PoolState} : PoolReach n s → PoolStep s t → PoolReach n t

/-! ## Helper lemmas -/

/-- A non-empty buffer always yields at least one extracted target,
whatever the pending accumulator is. -/
theorem buf_extract_targets_go_ne_nil (buf : List Nat) :
    ∀ cur, buf ≠ [] → buf_extract_targets_go cur buf ≠ [] := by
  induction buf with
  | nil => intro cur h; exact absurd rfl h
  | cons b rest ih =>
    intro cur _
    by_cases hb : b = 0
    · simp [buf_extract_targets_go, hb]
    · by_cases hr : rest = []
      · subst hr; simp [buf_extract_targets_go, hb]
      · simpa [buf_extract_targets_go, hb] using ih (cur ++ [b]) hr

/-- A non-empty payload never produces an empty target list. -/
theorem buf_extract_targets_ne_nil (payload : List Nat) (h : payload ≠ []) :
    buf_extract_targets payload ≠ [] :=
  buf_extract_targets_go_ne_nil payload [] h

/-- The loop bodies of the two target-extraction drafts agree. -/
theorem extract_targets_go_eq (buf : List Nat) :
    ∀ cur, extract_targets_go cur buf = buf_extract_targets_go cur buf := by
  induction buf with
  | nil => intro cur; rfl
  | cons b rest ih =>
    intro cur
    by_cases hb : b = 0 <;> simp [extract_targets_go, buf_extract_targets_go, hb, ih]

/-- An empty target parses to an empty key. -/
theorem targetKey_nil : targetKey [] = [] := rfl

/-! ## C1 — the bounded retry helper -/

/-- C1: `with_pullback` with `RETRIES = 20`, `SLEEP = 2` on an operation
that succeeds immediately makes one call with no sleep — yet still runs
the fallback once, because the source executes `fallback()`
unconditionally after the retry loop; an always-failing operation is
called 20 times with sleeps `0, 2, 4, ..., 38` and the fallback also runs
once.  This refutes the claim (and the function's own documentation) that
a successful attempt prevents the fallback from running. -/
theorem with_pullback_fallback_bug :
    (with_pullback 20 2 (fun _ => true)).calls = 1 ∧
    (with_pullback 20 2 (fun _ => true)).sleeps = [0] ∧
    (with_pullback 20 2 (fun _ => true)).fallbackRuns = 1 ∧
    (with_pullback 20 2 (fun _ => false)).calls = 20 ∧
    (with_pullback 20 2 (fun _ => false)).sleeps = (List.range 20).map (fun i => i * 2) ∧
    (with_pullback 20 2 (fun _ => false)).fallbackRuns = 1 := by
  decide

/-! ## C2 — malformed aggregate payloads crash the handler -/

/-- C2: any aggregate payload that begins with a NUL byte yields an empty
first target, on which the api.rs `aggregate` handler executes `panic!`
instead of returning an error: the handler does not "always return
normally with an error that is reported as a failure status byte". -/
theorem aggregate_panics_on_leading_nul (env : ApiEnv) (payload : List Nat) :
    aggregate env (0 :: payload) = .panicked := by
  have h : buf_extract_targets (0 :: payload) = [] :: buf_extract_targets_go [] payload := by
    simp [buf_extract_targets, buf_extract_targets_go]
  simp only [aggregate, h]
  simp [aggregateGo]

/-! ## C4 — create -/

/-- C4: an empty payload fails with `EmptyBuffer` and performs no store
write; a non-empty payload performs exactly one store write, storing the
payload under the freshly generated 26-character key, and returns the
key's text bytes as the success payload. -/
theorem create_spec (genKey payload : List Nat) (hk : genKey.length = 26) :
    (payload = [] → create genKey payload = (.error .emptyBuffer, [])) ∧
    (payload ≠ [] →
      create genKey payload = (.ok genKey, [.set genKey payload]) ∧ genKey.length = 26) :=
  ⟨fun h => by simp [create, h], fun h => ⟨by simp [create, h], hk⟩⟩

/-- Witness for C4 at a concrete 26-byte key and payload. -/
theorem create_spec_witness :
    (List.replicate 26 65 : List Nat).length = 26 ∧
    create (List.replicate 26 65) [104, 105] =
      (.ok (List.replicate 26 65), [.set (List.replicate 26 65) [104, 105]]) :=
  ⟨by decide, ((create_spec (List.replicate 26 65) [104, 105] (by decide)).2 (by decide)).1⟩

/-! ## C5 — remove -/

/-- C5 counterexample: the all-NUL payload `[0]` extracts the non-empty
key list `[[]]`, so `remove` does not fail with `EmptyKeys` as claimed —
it issues a batched delete of one empty key and reports success. -/
theorem remove_nul_payload_not_empty_keys :
    remove [0] = (.ok [], [.del [[]]]) := rfl

/-- C5 (amended): `remove` fails with `EmptyKeys` (and performs no store
deletion) exactly when the payload is empty — that is the only payload
whose NUL-splitting yields an empty key list; every non-empty payload
(all-NUL payloads included) issues exactly one batched `storage.del` call
over the extracted keys and returns an empty success payload. -/
theorem remove_spec (payload : List Nat) :
    (payload = [] → remove payload = (.error .emptyKeys, [])) ∧
    (payload ≠ [] → remove payload = (.ok [], [.del (buf_extract_targets payload)])) := by
  constructor
  · intro h; subst h; rfl
  · intro h
    simp [remove, buf_extract_targets_ne_nil payload h]

/-- Witness for C5 at a concrete non-empty payload. -/
theorem remove_spec_witness :
    remove [0, 5] = (.ok [], [.del (buf_extract_targets [0, 5])]) :=
  (remove_spec [0, 5]).2 (by decide)

/-! ## C8 — unknown command codes -/

/-- C8: a message whose command code is none of the registered codes 1, 2
and 3 is answered with exactly the two bytes `[1, 1]`, with no storage and
no network effect, whatever the payload is. -/
theorem unknown_code_reply (env : LoopEnv) (k code : Nat) (payload : List Nat)
    (h1 : code ≠ 1) (h2 : code ≠ 2) (h3 : code ≠ 3) :
    stepMessage env k (code :: payload) = ([unknown_command_reply], [], k) := by
  simp [stepMessage, h1, h2, h3, unknown_command_reply]

/-- Witness for C8 at the unregistered code 9. -/
theorem unknown_code_reply_witness :
    stepMessage loopEnv0 0 (9 :: [5, 5]) = ([unknown_command_reply], [], 0) :=
  unknown_code_reply loopEnv0 0 9 [5, 5] (by decide) (by decide) (by decide)

/-! ## C3 — invalid keys abort the whole aggregate call -/

/-- A target whose parsed key has the valid length 26 cannot be the empty
target. -/
theorem targetKey_length_ne_nil {u : List Nat} (h : (targetKey u).length = 26) :
    u ≠ [] := by
  intro he; subst he; simp [targetKey_nil] at h

/-- C3 counterexample: the payload `NUL ++ "short"` contains a first
target (the empty one) whose key part has length 0 ≠ 26, yet `aggregate`
does not fail with `InvalidKey` of that key — it panics. -/
theorem aggregate_empty_target_not_invalid_key :
    aggregate envOk (0 :: [115, 104, 111, 114, 116]) = .panicked ∧
    AggOutcome.panicked ≠ .err (.invalidKey []) := ⟨rfl, by decide⟩

/-- Reduction of one `aggregateGo` step on a valid local target. -/
theorem aggregateGo_cons_local (env : ApiEnv) (u : List Nat) (ts : List (List Nat))
    (acc : List Nat) (hune : u ≠ []) (hu26 : (targetKey u).length = 26)
    (hsp : (splitAtByte 64 u)[1]? = none) :
    aggregateGo env (u :: ts) acc =
      aggregateGo env ts
        (acc ++ targetKey u ++ [58] ++ ((env.store (targetKey u)).getD unknownKeyBytes) ++ [0]) := by
  simp only [aggregateGo]
  rw [if_neg hune, if_neg (not_not_intro hu26), hsp]

/-- Reduction of one `aggregateGo` step on a valid addressed target whose
remote call succeeds. -/
theorem aggregateGo_cons_remote (env : ApiEnv) (u : List Nat) (ts : List (List Nat))
    (acc chunk reply : List Nat) (hune : u ≠ []) (hu26 : (targetKey u).length = 26)
    (hsp : (splitAtByte 64 u)[1]? = some chunk)
    (hrem : env.remote (utf8LossyBytes chunk) (targetKey u) = .ok reply) :
    aggregateGo env (u :: ts) acc = aggregateGo env ts (acc ++ reply) := by
  simp only [aggregateGo]
  rw [if_neg hune, if_neg (not_not_intro hu26)]
  simp only [hsp, hrem]

/-- The fragment of a local target. -/
theorem fragment_local (env : ApiEnv) (u : List Nat)
    (hsp : (splitAtByte 64 u)[1]? = none) :
    fragment env u =
      targetKey u ++ [58] ++ ((env.store (targetKey u)).getD unknownKeyBytes) ++ [0] := by
  simp only [fragment]
  rw [hsp]

/-- The fragment of an addressed target whose remote call succeeds. -/
theorem fragment_remote (env : ApiEnv) (u chunk reply : List Nat)
    (hsp : (splitAtByte 64 u)[1]? = some chunk)
    (hrem : env.remote (utf8LossyBytes chunk) (targetKey u) = .ok reply) :
    fragment env u = reply := by
  simp only [fragment, hsp, hrem]
  rfl

/-- A successful remote call exists for every valid addressed target when
the remote client never fails. -/
theorem remote_ok_exists (env : ApiEnv) (hremote : ∀ a k, (env.remote a k).isOk = true)
    (a k : List Nat) : ∃ reply, env.remote a k = .ok reply := by
  cases hrem : env.remote a k with
  | error e =>
    exfalso
    have := hremote a k
    rw [hrem] at this
    simp [Except.isOk, Except.toBool] at this
  | ok reply => exact ⟨reply, rfl⟩

/-- Processing a target list that starts with valid targets and then hits
one with an invalid key aborts with `InvalidKey` of that key, provided the
remote calls of the earlier targets succeed. -/
theorem aggregateGo_first_invalid (env : ApiEnv) (t : List Nat) (ts2 : List (List Nat))
    (hremote : ∀ a k, (env.remote a k).isOk = true)
    (htne : t ≠ []) (hbad : (targetKey t).length ≠ 26) :
    ∀ ts1 acc, (∀ u ∈ ts1, (targetKey u).length = 26) →
      aggregateGo env (ts1 ++ t :: ts2) acc = .err (.invalidKey (targetKey t)) := by
  intro ts1
  induction ts1 with
  | nil =>
    intro acc _
    simp [aggregateGo, htne, hbad]
  | cons u ts1 ih =>
    intro acc hgood
    have hu26 : (targetKey u).length = 26 := hgood u (by simp)
    have hune : u ≠ [] := targetKey_length_ne_nil hu26
    have hrest : ∀ v ∈ ts1, (targetKey v).length = 26 := fun v hv => hgood v (by simp [hv])
    rw [List.cons_append]
    cases hsp : (splitAtByte 64 u)[1]? with
    | none => rw [aggregateGo_cons_local env u _ acc hune hu26 hsp]; exact ih _ hrest
    | some chunk =>
      obtain ⟨reply, hrem⟩ := remote_ok_exists env hremote (utf8LossyBytes chunk) (targetKey u)
      rw [aggregateGo_cons_remote env u _ acc chunk reply hune hu26 hsp hrem]
      exact ih _ hrest

/-- C3 (amended): for every aggregate payload all of whose extracted
targets are non-empty (an empty target makes the handler panic instead,
see the counterexample), if the targets up to some position all carry a
valid 26-character key, the target at that position does not, and the
remote lookups of the earlier targets succeed, then the whole call aborts
with `InvalidKey` of that first bad key, returning no output bytes. -/
theorem aggregate_invalid_key_first (env : ApiEnv) (payload : List Nat)
    (ts1 ts2 : List (List Nat)) (t : List Nat)
    (hsplit : buf_extract_targets payload = ts1 ++ t :: ts2)
    (hgood : ∀ u ∈ ts1, (targetKey u).length = 26)
    (htne : t ≠ []) (hbad : (targetKey t).length ≠ 26)
    (hremote : ∀ a k, (env.remote a k).isOk = true) :
    aggregate env payload = .err (.invalidKey (targetKey t)) := by
  have hne : ts1 ++ t :: ts2 ≠ [] := by simp
  simp only [aggregate, hsplit]
  rw [if_neg hne]
  exact aggregateGo_first_invalid env t ts2 hremote htne hbad ts1 [] hgood

/-- A valid 26-byte key made of the letter `'A'`. -/
def validKeyA : List Nat := List.replicate 26 65

/-- Witness for C3: one valid local target followed by the 5-byte key
`"short"`. -/
theorem aggregate_invalid_key_first_witness :
    aggregate envOk (validKeyA ++ 0 :: [115, 104, 111, 114, 116]) =
      .err (.invalidKey [115, 104, 111, 114, 116]) := by
  have h := aggregate_invalid_key_first envOk
    (validKeyA ++ 0 :: [115, 104, 111, 114, 116])
    [validKeyA] [] [115, 104, 111, 114, 116]
    (by decide) (by decide) (by decide) (by decide) (fun a k => rfl)
  rw [h]
  decide

/-! ## C6 — in-order concatenation of per-target fragments -/

/-- Processing any list of valid targets succeeds and appends the
per-target fragments, in order, to the accumulator, provided the remote
calls succeed. -/
theorem aggregateGo_ok_concats (env : ApiEnv)
    (hremote : ∀ a k, (env.remote a k).isOk = true) :
    ∀ ts acc, (∀ u ∈ ts, (targetKey u).length = 26) →
      aggregateGo env ts acc = .ok (acc ++ (ts.map (fragment env)).flatten) := by
  intro ts
  induction ts with
  | nil => intro acc _; simp [aggregateGo]
  | cons u ts ih =>
    intro acc hv
    have hu26 : (targetKey u).length = 26 := hv u (by simp)
    have hune : u ≠ [] := targetKey_length_ne_nil hu26
    have hrest : ∀ v ∈ ts, (targetKey v).length = 26 := fun v hv2 => hv v (by simp [hv2])
    cases hsp : (splitAtByte 64 u)[1]? with
    | none =>
      rw [aggregateGo_cons_local env u ts acc hune hu26 hsp, ih _ hrest]
      simp only [List.map_cons, List.flatten_cons]
      rw [fragment_local env u hsp]
      simp [List.append_assoc]
    | some chunk =>
      obtain ⟨reply, hrem⟩ := remote_ok_exists env hremote (utf8LossyBytes chunk) (targetKey u)
      rw [aggregateGo_cons_remote env u ts acc chunk reply hune hu26 hsp hrem, ih _ hrest]
      simp only [List.map_cons, List.flatten_cons]
      rw [fragment_remote env u chunk reply hsp hrem]
      simp [List.append_assoc]

/-- C6: for every aggregate payload with at least one target, all of whose
targets carry a valid 26-character key, and whose remote lookups succeed,
the call succeeds and the output is the in-order concatenation of the
per-target fragments: the raw remote reply for an addressed target,
`key ++ ':' ++ value ++ NUL` (with `"Unknown key"` substituted for a
missing key) for a local one. -/
theorem aggregate_ordered_concat (env : ApiEnv) (payload : List Nat)
    (hne : buf_extract_targets payload ≠ [])
    (hvalid : ∀ u ∈ buf_extract_targets payload, (targetKey u).length = 26)
    (hremote : ∀ a k, (env.remote a k).isOk = true) :
    aggregate env payload =
      .ok (((buf_extract_targets payload).map (fragment env)).flatten) := by
  simp only [aggregate]
  rw [if_neg hne]
  simpa using aggregateGo_ok_concats env hremote (buf_extract_targets payload) [] hvalid

/-- Witness for C6: a single valid local target, absent from the store,
yields `key ++ ':' ++ "Unknown key" ++ NUL`. -/
theorem aggregate_ordered_concat_witness :
    aggregate envOk validKeyA = .ok (validKeyA ++ [58] ++ unknownKeyBytes ++ [0]) := by
  have h := aggregate_ordered_concat envOk validKeyA (by decide) (by decide) (fun a k => rfl)
  rw [h]
  decide

/-! ## C7 — the failure response and loop continuation -/

/-- C7 counterexample: a handler error (here `aggregate` on an empty
payload) is answered with the three bytes `[1, 1, 0]` — the failure code,
a duplicate of the failure code, and a NUL — not with exactly the failure
code plus a single trailing marker byte. -/
theorem failure_reply_three_bytes :
    processMessages loopEnv0 0 [[3]] = ([[1, 1, 0]], []) ∧
    failure_reply.length = 3 ∧ failure_reply.length ≠ 2 := ⟨rfl, rfl, by decide⟩

/-- C7 (amended): when the dispatched handler fails on a registered
command code, the connection handler writes the three-byte failure
response `[failure_code, failure_code, 0]` for that request and the loop
carries on: the remaining messages on the stream are processed exactly as
they would be on their own, the connection is not closed. -/
theorem handler_failure_reply_and_loop (env : LoopEnv) (k code : Nat)
    (payload : List Nat) (ms : List (List Nat)) (e : ProtoError)
    (hc : code = 1 ∨ code = 2 ∨ code = 3)
    (he : (dispatch env k code payload).1 = .error e) :
    processMessages env k ((code :: payload) :: ms) =
      (failure_reply :: (processMessages env (dispatch env k code payload).2.2 ms).1,
        (dispatch env k code payload).2.1 ++
          (processMessages env (dispatch env k code payload).2.2 ms).2) := by
  have hb : (code = 1 || code = 2 || code = 3) = true := by
    rcases hc with h | h | h <;> simp [h]
  rcases hd : dispatch env k code payload with ⟨r, effs, k2⟩
  have hr : r = .error e := by rw [hd] at he; exact he
  subst hr
  rcases hp : processMessages env k2 ms with ⟨rs2, effs2⟩
  simp [processMessages, stepMessage, hb, hd, hp]

/-- Witness for C7: the failing aggregate request `[3]` followed by an
unknown-command request, both answered on the same stream. -/
theorem handler_failure_reply_and_loop_witness :
    processMessages loopEnv0 0 ([3] :: [[9]]) =
      (failure_reply :: (processMessages loopEnv0 (dispatch loopEnv0 0 3 []).2.2 [[9]]).1,
        (dispatch loopEnv0 0 3 []).2.1 ++
          (processMessages loopEnv0 (dispatch loopEnv0 0 3 []).2.2 [[9]]).2) :=
  handler_failure_reply_and_loop loopEnv0 0 3 [] [[9]] .payloadError
    (Or.inr (Or.inr rfl)) rfl

/-! ## C10 — the two target-extraction drafts -/

/-- C10: the protocol.rs draft `extract_targets` and the api.rs draft
`buf_extract_targets` compute the same function on every byte buffer. -/
theorem extract_targets_equiv (buf : List Nat) :
    extract_targets buf = buf_extract_targets buf :=
  extract_targets_go_eq buf []

/-! ## C9 — the worker pool -/

/-- No jobs are held by a replicated pool of idle workers. -/
theorem heldJobs_replicate_idle (n : Nat) : heldJobs (List.replicate n .idle) = [] := by
  induction n with
  | zero => rfl
  | succ n ih =>
    have h : heldJobs (WStatus.idle :: List.replicate n WStatus.idle) =
        heldJobs (List.replicate n WStatus.idle) := by
      simp [heldJobs, List.filterMap_cons]
    rw [List.replicate_succ, h, ih]

/-- `heldJobs` distributes over worker-list decompositions. -/
theorem heldJobs_append (l1 l2 : List WStatus) :
    heldJobs (l1 ++ l2) = heldJobs l1 ++ heldJobs l2 := by
  simp [heldJobs, List.filterMap_append]

/-- An idle worker holds no job. -/
theorem heldJobs_cons_idle (l : List WStatus) :
    heldJobs (.idle :: l) = heldJobs l := by
  simp [heldJobs, List.filterMap_cons]

/-- An exited worker holds no job. -/
theorem heldJobs_cons_exited (l : List WStatus) :
    heldJobs (.exited :: l) = heldJobs l := by
  simp [heldJobs, List.filterMap_cons]

/-- A running worker holds exactly its job. -/
theorem heldJobs_cons_running (j : Nat) (l : List WStatus) :
    heldJobs (.running j :: l) = j :: heldJobs l := by
  simp [heldJobs, List.filterMap_cons]

/-- A fully exited worker list holds no jobs. -/
theorem heldJobs_all_exited (ws : List WStatus) (h : ∀ w ∈ ws, w = .exited) :
    heldJobs ws = [] := by
  induction ws with
  | nil => rfl
  | cons w ws ih =>
    have hw := h w (by simp)
    subst hw
    exact (heldJobs_cons_exited ws).trans (ih fun w hw => h w (by simp [hw]))

/-- Conservation invariant: every submitted job is accounted for exactly
once, as executed, still queued, or held by a running worker. -/
theorem pool_count_inv {n : Nat} {s : PoolState} (hr : PoolReach n s) (x : Nat) :
    s.submitted.count x =
      s.executed.count x + s.queue.count x + (heldJobs s.workers).count x := by
  induction hr with
  | init => simp [initPool, heldJobs_replicate_idle]
  | @step s t hr hs ih =>
    cases hs with
    | submit j h =>
      simp only [List.count_append] at *
      omega
    | take l1 l2 j rest hw hq =>
      rw [hw, hq] at ih
      rw [heldJobs_append, heldJobs_cons_idle] at ih
      show s.submitted.count x =
        s.executed.count x + rest.count x + (heldJobs (l1 ++ .running j :: l2)).count x
      rw [heldJobs_append, heldJobs_cons_running]
      simp only [List.count_append, List.count_cons, List.count_nil] at *
      omega
    | finish l1 l2 j hw =>
      rw [hw] at ih
      rw [heldJobs_append, heldJobs_cons_running] at ih
      show s.submitted.count x =
        (s.executed ++ [j]).count x + s.queue.count x + (heldJobs (l1 ++ .idle :: l2)).count x
      rw [heldJobs_append, heldJobs_cons_idle]
      simp only [List.count_append, List.count_cons, List.count_nil] at *
      omega
    | close => simpa using ih
    | exit l1 l2 hw hc hq =>
      rw [hw] at ih
      rw [heldJobs_append, heldJobs_cons_idle] at ih
      show s.submitted.count x =
        s.executed.count x + s.queue.count x + (heldJobs (l1 ++ .exited :: l2)).count x
      rw [heldJobs_append, heldJobs_cons_exited]
      exact ih

/-- The number of worker threads never changes. -/
theorem pool_workers_length {n : Nat} {s : PoolState} (hr : PoolReach n s) :
    s.workers.length = n := by
  induction hr with
  | init => simp [initPool]
  | @step s t hr hs ih =>
    cases hs with
    | submit j h => simpa using ih
    | take l1 l2 j rest hw hq => rw [hw] at ih; simpa using ih
    | finish l1 l2 j hw => rw [hw] at ih; simpa using ih
    | close => simpa using ih
    | exit l1 l2 hw hc hq => rw [hw] at ih; simpa using ih

/-- Once any worker has exited, the submission channel is closed: a
worker only exits after `recv` fails, which requires the sender to have
been dropped, and the sender is never re-created. -/
theorem pool_exited_closed {n : Nat} {s : PoolState} (hr : PoolReach n s)
    (hx : WStatus.exited ∈ s.workers) : s.closed = true := by
  induction hr with
  | init =>
    exfalso
    have hx2 : WStatus.exited ∈ List.replicate n WStatus.idle := hx
    have := List.eq_of_mem_replicate hx2
    simp at this
  | @step s t hr hs ih =>
    cases hs with
    | submit j h => exact ih hx
    | take l1 l2 j rest hw hq =>
      apply ih
      rw [hw]
      have hx2 : WStatus.exited ∈ l1 ++ WStatus.running j :: l2 := hx
      simp only [List.mem_append, List.mem_cons] at hx2 ⊢
      rcases hx2 with h1 | h1 | h1
      · exact Or.inl h1
      · exact absurd h1 (by simp)
      · exact Or.inr (Or.inr h1)
    | finish l1 l2 j hw =>
      apply ih
      rw [hw]
      have hx2 : WStatus.exited ∈ l1 ++ WStatus.idle :: l2 := hx
      simp only [List.mem_append, List.mem_cons] at hx2 ⊢
      rcases hx2 with h1 | h1 | h1
      · exact Or.inl h1
      · exact absurd h1 (by simp)
      · exact Or.inr (Or.inr h1)
    | close => rfl
    | exit l1 l2 hw hc hq => exact hc

/-- When teardown has completed (all workers exited), the queue has been
drained: every exit requires an empty, closed queue and nothing can be
queued afterwards. -/
theorem pool_all_exited_queue_nil {n : Nat} (hn : 0 < n) {s : PoolState}
    (hr : PoolReach n s) (hx : ∀ w ∈ s.workers, w = .exited) : s.queue = [] := by
  induction hr with
  | init =>
    exfalso
    have hm : WStatus.idle ∈ (initPool n).workers := by
      simp [initPool, List.mem_replicate]
      omega
    have := hx _ hm
    simp at this
  | @step s t hr hs ih =>
    cases hs with
    | submit j h =>
      exfalso
      have hlen : s.workers.length = n := pool_workers_length hr
      have hnn : s.workers ≠ [] := by
        intro he
        rw [he] at hlen
        simp at hlen
        omega
      obtain ⟨w, hw⟩ := List.exists_mem_of_ne_nil s.workers hnn
      have hwex : w = .exited := hx w hw
      have hc : s.closed = true := pool_exited_closed hr (hwex ▸ hw)
      rw [h] at hc
      cases hc
    | take l1 l2 j rest hw hq =>
      exfalso
      have : WStatus.running j = .exited := hx (WStatus.running j) (by simp)
      simp at this
    | finish l1 l2 j hw =>
      exfalso
      have : WStatus.idle = .exited := hx WStatus.idle (by simp)
      simp at this
    | close => exact ih hx
    | exit l1 l2 hw hc hq => exact hq

/-- C9: in every reachable pool state in which teardown has completed
(every worker has exited), the executed jobs are a permutation of the
submitted jobs — each submitted job ran exactly once — the submission
channel is closed (so any further `execute` fails on the taken sender),
and the queue has been fully drained before the workers exited. -/
theorem pool_teardown_exactly_once (n : Nat) (s : PoolState) (hn : 0 < n)
    (hr : PoolReach n s) (hx : ∀ w ∈ s.workers, w = .exited) :
    s.submitted.Perm s.executed ∧ s.closed = true ∧ s.queue = [] := by
  have hq := pool_all_exited_queue_nil hn hr hx
  have hlen := pool_workers_length hr
  have hnn : s.workers ≠ [] := by
    intro he
    rw [he] at hlen
    simp at hlen
    omega
  obtain ⟨w, hw⟩ := List.exists_mem_of_ne_nil s.workers hnn
  have hc := pool_exited_closed hr ((hx w hw) ▸ hw)
  refine ⟨List.perm_iff_count.2 fun x => ?_, hc, hq⟩
  have hinv := pool_count_inv hr x
  rw [hq, heldJobs_all_exited s.workers hx] at hinv
  simpa using hinv

/-- Witness for C9: a one-worker pool that receives one job, runs it,
is closed and joined. -/
theorem pool_teardown_exactly_once_witness :
    (PoolState.mk [] true [WStatus.exited] [7] [7]).submitted.Perm
      (PoolState.mk [] true [WStatus.exited] [7] [7]).executed ∧
    (PoolState.mk [] true [WStatus.exited] [7] [7]).closed = true ∧
    (PoolState.mk [] true [WStatus.exited] [7] [7]).queue = [] := by
  have h0 : PoolReach 1 (initPool 1) := PoolReach.init
  have h1 : PoolReach 1 ⟨[7], false, [WStatus.idle], [7], []⟩ :=
    h0.step (PoolStep.submit (initPool 1) 7 rfl)
  have h2 : PoolReach 1 ⟨[], false, [WStatus.running 7], [7], []⟩ :=
    h1.step (PoolStep.take _ [] [] 7 [] rfl rfl)
  have h3 : PoolReach 1 ⟨[], false, [WStatus.idle], [7], [7]⟩ :=
    h2.step (PoolStep.finish _ [] [] 7 rfl)
  have h4 : PoolReach 1 ⟨[], true, [WStatus.idle], [7], [7]⟩ :=
    h3.step (PoolStep.close _)
  have h5 : PoolReach 1 ⟨[], true, [WStatus.exited], [7], [7]⟩ :=
    h4.step (PoolStep.exit _ [] [] rfl rfl rfl)
  exact pool_teardown_exactly_once 1 ⟨[], true, [WStatus.exited], [7], [7]⟩
    (by decide) h5 (by intro w hw; simpa using hw)

end Multiverse9
